import Mathlib

/-!
Verification of the double-valued histogram front end
(`src/hdr_dbl_histogram.c`) of HdrHistogram_c.

The C file is shallowly embedded below.  Doubles are modelled as exact
rationals (every arithmetic operation the code performs on its window
bounds and conversion ratios is a multiplication or division by a power
of two, which is exact in IEEE double as long as no overflow/underflow
occurs, so the rational model is faithful on the ranges exercised here);
64-bit and 32-bit machine integers are modelled as `Int` with explicit
wrap-around (`toInt64` / `toInt32`) exactly where the C arithmetic can
overflow.  The underlying integer histogram engine (`hdr_histogram.c`)
is not part of the sources; following the specification it is treated
as a black box whose observable behaviour (shift outcomes, record
outcomes, total count, count at index 0) is supplied by an oracle.
-/

namespace HdrDbl

/-- Wrap an integer to signed 32-bit two's-complement range,
modelling C `int` overflow behaviour (wrap-around). -/
def toInt32 (n : ℤ) : ℤ := (n + 2 ^ 31) % 2 ^ 32 - 2 ^ 31

/-- Wrap an integer to signed 64-bit two's-complement range,
modelling C `int64_t` overflow behaviour (wrap-around). -/
def toInt64 (n : ℤ) : ℤ := (n + 2 ^ 63) % 2 ^ 64 - 2 ^ 63

/-- C truncation of a floating-point value to an integer
(`(int64_t) d`): rounding toward zero. -/
def truncQ (q : ℚ) : ℤ := if 0 ≤ q then ⌊q⌋ else ⌈q⌉

/-- Modelled from the spec: the Integer Histogram Engine
(`struct hdr_histogram`, implemented in `hdr_histogram.c`, which is not
among the sources).  Only the behaviour the double histogram observes is
kept: the total recorded count, the count stored at index 0, the
outcomes of successive left/right value-shift attempts (supplied as
oracle streams, since the engine decides losslessness internally), and
the success of recording a given integer value. -/
structure hdr_histogram where
  total_count : ℤ
  count0 : ℤ
  left_shift_results : List Bool
  right_shift_results : List Bool
  recordOk : ℤ → Bool

/-- Modelled from the spec: `count_at_index(engine, index)`.  The double
histogram only ever queries index 0. -/
def hdr_count_at_index (e : hdr_histogram) (i : ℕ) : ℤ :=
  if i = 0 then e.count0 else 0

/-- Modelled from the spec: `shift_values_left(engine, shift) -> bool`,
the engine's lossless rebase toward higher indices; returns whether the
rebase was lossless and applied.  The outcome of each successive call is
taken from the oracle stream (an exhausted stream reports failure). -/
def hdr_shift_values_left (e : hdr_histogram) (_shift : ℕ) : Bool × hdr_histogram :=
  match e.left_shift_results with
  | [] => (false, e)
  | b :: rest => (b, { e with left_shift_results := rest })

/-- Modelled from the spec: `shift_values_right(engine, shift) -> bool`,
the engine's lossless rebase toward lower indices. -/
def hdr_shift_values_right (e : hdr_histogram) (_shift : ℕ) : Bool × hdr_histogram :=
  match e.right_shift_results with
  | [] => (false, e)
  | b :: rest => (b, { e with right_shift_results := rest })

/-- Modelled from the spec: `record(engine, int_value) -> success | failure`;
on success the total recorded count grows by one. -/
def hdr_record_value (e : hdr_histogram) (v : ℤ) : Bool × hdr_histogram :=
  if e.recordOk v then (true, { e with total_count := e.total_count + 1 }) else (false, e)

/-- `struct hdr_dbl_histogram` (src/hdr_dbl_histogram.c).  The double
fields are modelled as exact rationals. -/
structure hdr_dbl_histogram where
  highest_to_lowest_value_ratio : ℤ
  current_lowest_value : ℚ
  current_highest_value : ℚ
  int_to_dbl_conversion_ratio : ℚ
  dbl_to_int_conversion_ratio : ℚ
  values : hdr_histogram

/-- `HIGHEST_VALUE_EVA = 4.49423283715579E307` (line 14), the absolute
ceiling on recordable values.  Modelled as the exact decimal; the
bit-exact double rounding of the literal is immaterial to the claims,
which only use that the constant is finite and positive. -/
def HIGHEST_VALUE_EVA : ℚ := 449423283715579 * 10 ^ 293

/-- Helper for `power`: the C loop `while(exp) { result *= base; exp--; }`
accumulating in a 32-bit `int` (the declared accumulator type in the
source), with each product wrapped to `int` width. -/
def powerAux (base : ℤ) : ℕ → ℤ → ℤ
  | 0, r => r
  | n + 1, r => powerAux base n (toInt32 (r * base))

/-- `power(base, exp)` (lines 24-32).  The accumulator is a 32-bit `int`
even though the function returns `int64_t`, so the iterated product wraps at
32 bits; the final conversion back to `int64_t` is exact
(sign-extension).  Callers only reach it with `exp >= 1`. -/
def power (base : ℤ) (exp : ℕ) : ℤ := powerAux base exp 1

/-- `find_containing_binary_order_of_magnitude(value)` (lines 42-45):
`64 - __builtin_clzll(value)`, the position of the highest set bit.
For `1 <= value < 2^63` this equals `Nat.log2 value + 1`.  The C code
never calls it with `value <= 0` (which would be undefined). -/
def find_containing_binary_order_of_magnitude (value : ℤ) : ℕ :=
  Nat.log2 value.toNat + 1

/-- `calculate_internal_highest_to_lowest_value_ratio` (lines 47-50):
`1 << (find_containing_binary_order_of_magnitude(ratio) + 1)`. -/
def calculate_internal_highest_to_lowest_value_ratio (external_ratio : ℤ) : ℤ :=
  2 ^ (find_containing_binary_order_of_magnitude external_ratio + 1)

/-- `number_of_sub_buckets(significant_figures)` (lines 34-40).  The C
computes `ceil(log(largest/log(2)))` — note the parenthesis placement in
the source: the *natural* logarithm of `largest / ln 2` — and raises 2 to
that power.  `pow(10, sf)` and `pow(2, m)` are exact doubles on the
relevant range, and libm `log` is modelled as the exact real logarithm
(correct rounding of `log` cannot move the value across the integer
`ceil` boundaries at the points evaluated in the theorems below). -/
noncomputable def number_of_sub_buckets (significant_figures : ℕ) : ℤ :=
  2 ^ (⌈Real.log ((2 * 10 ^ significant_figures : ℤ) / Real.log 2)⌉).toNat

/-- `calculate_integer_value_range` (lines 52-60). -/
noncomputable def calculate_integer_value_range (external_ratio : ℤ) (significant_figures : ℕ) : ℤ :=
  (number_of_sub_buckets significant_figures / 2) *
    calculate_internal_highest_to_lowest_value_ratio external_ratio

/-- `find_capped_containing_binary_order_of_magnitude(h, d)` (lines
62-74).  The first branch computes `(int32_t)(log(ratio)/log(2))` =
the floor of the base-2 logarithm of the stored (external)
`highest_to_lowest_value_ratio`, modelled exactly as `Nat.log2`; the
comparison `d > ratio` promotes the int64 field to double, which is
exact for the ratios the validation admits (`< 2^58`). -/
def find_capped_containing_binary_order_of_magnitude (h : hdr_dbl_histogram) (d : ℚ) : ℕ :=
  if (h.highest_to_lowest_value_ratio : ℚ) < d then
    Nat.log2 h.highest_to_lowest_value_ratio.toNat
  else if (2 : ℚ) ^ 50 < d then
    50
  else
    find_containing_binary_order_of_magnitude (truncQ d)

/-- `shift_covered_range_right(h, shift)` (lines 76-90), including the
short-circuit of the C `||`: when `total_count > count_at_index(0)` the
engine shift is *not* invoked and the branch is taken immediately. -/
def shift_covered_range_right (h : hdr_dbl_histogram) (shift : ℕ) : Bool × hdr_dbl_histogram :=
  let shift_multiplier : ℚ := 1 / 2 ^ shift
  if hdr_count_at_index h.values 0 < h.values.total_count then
    (true, { h with
      current_lowest_value := h.current_lowest_value * shift_multiplier
      current_highest_value := h.current_highest_value * shift_multiplier })
  else if (hdr_shift_values_left h.values shift).1 then
    (true, { h with
      values := (hdr_shift_values_left h.values shift).2
      current_lowest_value := h.current_lowest_value * shift_multiplier
      current_highest_value := h.current_highest_value * shift_multiplier })
  else (false, { h with values := (hdr_shift_values_left h.values shift).2 })

/-- `shift_covered_range_left(h, shift)` (lines 92-106). -/
def shift_covered_range_left (h : hdr_dbl_histogram) (shift : ℕ) : Bool × hdr_dbl_histogram :=
  let shift_multiplier : ℚ := 2 ^ shift
  if hdr_count_at_index h.values 0 < h.values.total_count then
    (true, { h with
      current_lowest_value := h.current_lowest_value * shift_multiplier
      current_highest_value := h.current_highest_value * shift_multiplier })
  else if (hdr_shift_values_right h.values shift).1 then
    (true, { h with
      values := (hdr_shift_values_right h.values shift).2
      current_lowest_value := h.current_lowest_value * shift_multiplier
      current_highest_value := h.current_highest_value * shift_multiplier })
  else (false, { h with values := (hdr_shift_values_right h.values shift).2 })

/-- The `do { ... } while (value < h->current_lowest_value)` loop of
`adjust_range_for_value` (lines 123-133), with explicit fuel: `none`
means the fuel ran out before the loop finished (the C loop has no fuel;
the termination claim shows sufficient fuel always exists). -/
def adjust_down_loop : ℕ → hdr_dbl_histogram → ℚ → Option (Bool × hdr_dbl_histogram)
  | 0, _, _ => none
  | n + 1, h, value =>
    let r_val : ℚ := (⌈h.current_lowest_value / value⌉ : ℚ) - 1
    let res := shift_covered_range_right h (find_capped_containing_binary_order_of_magnitude h r_val)
    if res.1 then
      if value < res.2.current_lowest_value then adjust_down_loop n res.2 value
      else some (true, res.2)
    else some (false, res.2)

/-- `next_representable_double_above(value)` — the libm
`nextafter(value, DBL_MAX)` used at line 144.  Modelled from the spec:
a value strictly above `value` at ULP scale; the claims only use that it
is strictly larger than any positive `value`. -/
def nextafter_dbl_max (value : ℚ) : ℚ := value * (1 + 1 / 2 ^ 52)

/-- The `do { ... } while (value >= h->current_highest_value)` loop of
`adjust_range_for_value` (lines 142-152), with explicit fuel. -/
def adjust_up_loop : ℕ → hdr_dbl_histogram → ℚ → Option (Bool × hdr_dbl_histogram)
  | 0, _, _ => none
  | n + 1, h, value =>
    let r_val : ℚ := (⌈nextafter_dbl_max value / h.current_highest_value⌉ : ℚ) - 1
    let res := shift_covered_range_left h (find_capped_containing_binary_order_of_magnitude h r_val)
    if res.1 then
      if res.2.current_highest_value ≤ value then adjust_up_loop n res.2 value
      else some (true, res.2)
    else some (false, res.2)

/-- `adjust_range_for_value(h, value)` (lines 109-156).  Besides the C
result `bool` the model returns the (possibly partially advanced)
histogram state; `none` only signals loop fuel exhaustion. -/
def adjust_range_for_value (fuel : ℕ) (h : hdr_dbl_histogram) (value : ℚ) :
    Option (Bool × hdr_dbl_histogram) :=
  if value = 0 then some (true, h)
  else if value < h.current_lowest_value then
    if value < 0 then some (false, h)
    else adjust_down_loop fuel h value
  else if h.current_highest_value ≤ value then
    if HIGHEST_VALUE_EVA < value then some (false, h)
    else adjust_up_loop fuel h value
  else some (true, h)

/-- `hdr_dbl_init` (lines 166-220).  `sub_bucket_half_count` stands for
`cfg.sub_bucket_half_count` as derived by the engine's
`hdr_calculate_bucket_config` — modelled from the spec as a parameter,
since that derivation lives in the engine, outside the sources; the
engine instance `e` likewise stands for the zero-initialized engine
produced by `hdr_init_preallocated`.  Engine configuration failure and
allocation failure are not modelled (they do not affect any claim
settled below); `none` corresponds exactly to the three `EINVAL`
validation exits. -/
def hdr_dbl_init (highest_to_lowest_value_ratio significant_figures : ℤ)
    (sub_bucket_half_count : ℤ) (e : hdr_histogram) : Option hdr_dbl_histogram :=
  if highest_to_lowest_value_ratio < 2 then none
  else if significant_figures < 1 then none
  else if (2 : ℤ) ^ 61 ≤
      toInt64 (highest_to_lowest_value_ratio * power 10 significant_figures.toNat) then none
  else
    let internal := calculate_internal_highest_to_lowest_value_ratio highest_to_lowest_value_ratio
    some { highest_to_lowest_value_ratio := highest_to_lowest_value_ratio
           current_lowest_value := 2 ^ 800
           current_highest_value := 2 ^ 800 * (internal : ℚ)
           int_to_dbl_conversion_ratio := 2 ^ 800 / (sub_bucket_half_count : ℚ)
           dbl_to_int_conversion_ratio := 1 / (2 ^ 800 / (sub_bucket_half_count : ℚ))
           values := e }

/-- `hdr_dbl_record_value(h, value)` (lines 222-236).  Note the source
discards the result of `hdr_record_value` and returns `true`
unconditionally once range adjustment has succeeded or was unneeded. -/
def hdr_dbl_record_value (fuel : ℕ) (h : hdr_dbl_histogram) (value : ℚ) :
    Option (Bool × hdr_dbl_histogram) :=
  if value < h.current_lowest_value ∨ h.current_highest_value ≤ value then
    match adjust_range_for_value fuel h value with
    | none => none
    | some (false, h1) => some (false, h1)
    | some (true, h1) =>
      let int_value := truncQ (value * h1.dbl_to_int_conversion_ratio)
      some (true, { h1 with values := (hdr_record_value h1.values int_value).2 })
  else
    let int_value := truncQ (value * h.dbl_to_int_conversion_ratio)
    some (true, { h with values := (hdr_record_value h.values int_value).2 })

/-! ### Concrete states used to evaluate the code -/

/-- An engine holding two recorded counts, one of them outside index 0,
whose next lossless-shift attempt (in either direction) would be lossy
and therefore reports failure. -/
def engineLossyShift : hdr_histogram :=
  { total_count := 2
    count0 := 1
    left_shift_results := [false]
    right_shift_results := [false]
    recordOk := fun _ => true }

/-- A histogram (requested ratio 2, window `[2^800, 2^803)`) over
`engineLossyShift`. -/
def histLossy : hdr_dbl_histogram :=
  { highest_to_lowest_value_ratio := 2
    current_lowest_value := 2 ^ 800
    current_highest_value := 2 ^ 803
    int_to_dbl_conversion_ratio := 2 ^ 790
    dbl_to_int_conversion_ratio := 1 / 2 ^ 790
    values := engineLossyShift }

/-- A fresh, empty engine whose shift attempts would all succeed and
whose record operations all succeed. -/
def engineFreshOk : hdr_histogram :=
  { total_count := 0
    count0 := 0
    left_shift_results := [true]
    right_shift_results := [true]
    recordOk := fun _ => true }

/-- The histogram state `hdr_dbl_init(2, 3, ...)` produces over a fresh
engine, with the engine-derived `cfg.sub_bucket_half_count` taken to be
1024. -/
def histFresh : hdr_dbl_histogram :=
  { highest_to_lowest_value_ratio := 2
    current_lowest_value := 2 ^ 800
    current_highest_value := 2 ^ 800 * ((calculate_internal_highest_to_lowest_value_ratio 2 : ℤ) : ℚ)
    int_to_dbl_conversion_ratio := 2 ^ 800 / (1024 : ℚ)
    dbl_to_int_conversion_ratio := 1 / (2 ^ 800 / (1024 : ℚ))
    values := engineFreshOk }

/-- An engine on which every record operation fails (the integer value
is outside the engine's trackable range). -/
def engineRecordFail : hdr_histogram :=
  { total_count := 0
    count0 := 0
    left_shift_results := []
    right_shift_results := []
    recordOk := fun _ => false }

/-- A small-window histogram (requested ratio 2, window `[1, 8)`,
`dbl_to_int_conversion_ratio = 1024`) over `engineRecordFail`. -/
def histSmallWindow : hdr_dbl_histogram :=
  { highest_to_lowest_value_ratio := 2
    current_lowest_value := 1
    current_highest_value := 8
    int_to_dbl_conversion_ratio := 1 / 1024
    dbl_to_int_conversion_ratio := 1024
    values := engineRecordFail }

/-- The spec's precondition for applying a downward window shift
(claim C1): all recorded counts live at bucket index 0, or the engine's
lossless shift succeeds. -/
def shift_right_permitted_spec (h : hdr_dbl_histogram) (shift : ℕ) : Prop :=
  h.values.total_count ≤ hdr_count_at_index h.values 0
  ∨ (hdr_shift_values_left h.values shift).1 = true

/-- The capped binary order of magnitude as claim C6 words it: the cap
compares against (and returns the binary exponent of) the *internal*
highest-to-lowest ratio rather than the requested one. -/
def capped_order_of_magnitude_claim (h : hdr_dbl_histogram) (d : ℚ) : ℕ :=
  let internal := calculate_internal_highest_to_lowest_value_ratio h.highest_to_lowest_value_ratio
  if (internal : ℚ) < d then
    Nat.log2 internal.toNat
  else if (2 : ℚ) ^ 50 < d then
    50
  else
    find_containing_binary_order_of_magnitude (truncQ d)

/-- The state `histFresh` evolves to when the value 0.0 is recorded into
it: only the engine's total count changes. -/
def histFreshRecorded : hdr_dbl_histogram :=
  { histFresh with values := { engineFreshOk with total_count := 1 } }

/-! ### Claim theorems -/

/-- Claim C1 (code bug): on a histogram whose counts do not all live at
bucket index 0 and whose engine reports the shift as lossy,
`shift_covered_range_right` nevertheless reports success and rescales the
window — and it never even invokes the engine's shift (the oracle stream
is left untouched), because `total_count > count_at_index(0)`
short-circuits the `||`.  The claim requires the attempt to fail here. -/
theorem c1_shift_applied_despite_lossy_counts :
    (shift_covered_range_right histLossy 1).1 = true
    ∧ ¬ shift_right_permitted_spec histLossy 1
    ∧ (shift_covered_range_right histLossy 1).2.values.left_shift_results
        = histLossy.values.left_shift_results
    ∧ (shift_covered_range_right histLossy 1).2.current_lowest_value
        = histLossy.current_lowest_value * (1 / 2) := by
  refine ⟨rfl, ?_, rfl, by norm_num [shift_covered_range_right, histLossy,
    engineLossyShift, hdr_count_at_index]⟩
  intro hper
  rcases hper with hp | hp
  · revert hp; decide
  · revert hp; decide

/-- Claim C2 (code bug): a successful `shift_covered_range_right` moves
the window (`current_lowest_value` halves) but leaves both conversion
ratios exactly as they were, so they are *not* recomputed when the
window moves: after the shift, `int_to_dbl_conversion_ratio` no longer
equals `current_lowest_value / sub_bucket_half_count`, the defining
relation `hdr_dbl_init` established. -/
theorem c2_ratios_not_recomputed_on_shift :
    hdr_dbl_init 2 3 1024 engineFreshOk = some histFresh
    ∧ (shift_covered_range_right histFresh 1).1 = true
    ∧ (shift_covered_range_right histFresh 1).2.current_lowest_value
        ≠ histFresh.current_lowest_value
    ∧ (shift_covered_range_right histFresh 1).2.int_to_dbl_conversion_ratio
        = histFresh.int_to_dbl_conversion_ratio
    ∧ (shift_covered_range_right histFresh 1).2.dbl_to_int_conversion_ratio
        = histFresh.dbl_to_int_conversion_ratio
    ∧ (shift_covered_range_right histFresh 1).2.int_to_dbl_conversion_ratio
        ≠ (shift_covered_range_right histFresh 1).2.current_lowest_value / (1024 : ℚ) := by
  refine ⟨rfl, rfl, ?_, rfl, rfl, ?_⟩
  · norm_num [shift_covered_range_right, histFresh, engineFreshOk, hdr_count_at_index,
      hdr_shift_values_left]
  · norm_num [shift_covered_range_right, histFresh, engineFreshOk, hdr_count_at_index,
      hdr_shift_values_left]

/-- Claim C3 (code bug): with the value inside the current window no
adjustment is attempted, the engine's record operation *fails* on the
converted integer value, yet `hdr_dbl_record_value` still returns
`true` — the source discards `hdr_record_value`'s result. -/
theorem c3_record_ignores_engine_failure :
    (hdr_dbl_record_value 0 histSmallWindow 2).map Prod.fst = some true
    ∧ (hdr_record_value histSmallWindow.values
        (truncQ (2 * histSmallWindow.dbl_to_int_conversion_ratio))).1 = false :=
  ⟨rfl, rfl⟩

/-- Claim C7 (code bug): `hdr_dbl_init`'s overflow guard is itself
computed in wrapping 64-bit arithmetic.  At
`highest_to_lowest_value_ratio = 2^60`, `significant_figures = 1` the
mathematical product `2^60 * 10^1` is at least `2^61`, so the claim
requires rejection, but the wrapped product is negative and validation
accepts the parameters. -/
theorem c7_validation_overflow_accepts :
    (hdr_dbl_init (2 ^ 60) 1 1024 engineFreshOk).isSome = true
    ∧ (2 : ℤ) ^ 61 ≤ 2 ^ 60 * 10 ^ (1 : ℕ) := by
  exact ⟨rfl, by norm_num⟩

/-- Claim C5, counterexample: at requested ratio 2 the code computes an
internal ratio of 8, yet 4 = 2^2 is already a power of two strictly
greater than 2, so 8 is not the *smallest* such power (the claim's
formula `2^(floor(log2 ratio)+1)` gives 4). -/
theorem c5_counterexample :
    calculate_internal_highest_to_lowest_value_ratio 2 = 8
    ∧ (2 : ℤ) < 2 ^ 2
    ∧ (2 : ℤ) ^ 2 < calculate_internal_highest_to_lowest_value_ratio 2 := by
  have hl : Nat.log2 (Int.toNat 2) = 1 := by simp [Nat.log2]
  refine ⟨?_, by norm_num, ?_⟩ <;>
    · simp only [calculate_internal_highest_to_lowest_value_ratio,
        find_containing_binary_order_of_magnitude, hl]
      norm_num

/-- Claim C5 (amended): for every ratio ≥ 1,
`calculate_internal_highest_to_lowest_value_ratio` returns
`2^(floor(log2 ratio) + 2)` — a power of two lying strictly above
`2 * ratio` and at most `4 * ratio`, i.e. the smallest power of two
strictly greater than *twice* the requested ratio (one binary order
larger than the claim stated). -/
theorem c5_internal_ratio_amended (r : ℤ) (hr : 1 ≤ r) :
    calculate_internal_highest_to_lowest_value_ratio r = 2 ^ (Nat.log2 r.toNat + 2)
    ∧ 2 * r < calculate_internal_highest_to_lowest_value_ratio r
    ∧ calculate_internal_highest_to_lowest_value_ratio r ≤ 4 * r := by
  have hn : r.toNat ≠ 0 := by omega
  have h1 : 2 ^ Nat.log2 r.toNat ≤ r.toNat := (Nat.le_log2 hn).1 le_rfl
  have h2 : r.toNat < 2 ^ (Nat.log2 r.toNat + 1) := (Nat.log2_lt hn).1 (Nat.lt_succ_self _)
  have hcast : (r.toNat : ℤ) = r := Int.toNat_of_nonneg (by omega)
  refine ⟨rfl, ?_, ?_⟩
  · unfold calculate_internal_highest_to_lowest_value_ratio
      find_containing_binary_order_of_magnitude
    have := (Nat.cast_lt (α := ℤ)).2 h2
    push_cast at this
    rw [hcast] at this
    calc 2 * r < 2 * 2 ^ (Nat.log2 r.toNat + 1) := by linarith
      _ = 2 ^ (Nat.log2 r.toNat + 1 + 1) := by ring
  · unfold calculate_internal_highest_to_lowest_value_ratio
      find_containing_binary_order_of_magnitude
    have := (Nat.cast_le (α := ℤ)).2 h1
    push_cast at this
    rw [hcast] at this
    calc (2 : ℤ) ^ (Nat.log2 r.toNat + 1 + 1) = 4 * 2 ^ Nat.log2 r.toNat := by ring
      _ ≤ 4 * r := by linarith

/-- Witness for the amended claim C5: instantiated at ratio 2, where the
code yields 8 = `2^(floor(log2 2) + 2)`. -/
theorem c5_witness :
    (1 : ℤ) ≤ 2
    ∧ (calculate_internal_highest_to_lowest_value_ratio 2 = 2 ^ (Nat.log2 (2 : ℤ).toNat + 2)
      ∧ 2 * 2 < calculate_internal_highest_to_lowest_value_ratio 2
      ∧ calculate_internal_highest_to_lowest_value_ratio 2 ≤ 4 * 2) :=
  ⟨by norm_num, c5_internal_ratio_amended 2 (by norm_num)⟩

/-- Characterization of the code's binary order-of-magnitude helper on
positive integers: `Nat.log2 v.toNat` is the exponent of the highest
set bit. -/
lemma int_log2_char (v : ℤ) (hv : 1 ≤ v) :
    (2 : ℤ) ^ Nat.log2 v.toNat ≤ v ∧ v < 2 ^ (Nat.log2 v.toNat + 1) := by
  have hn : v.toNat ≠ 0 := by omega
  have h1 := (Nat.le_log2 hn).1 le_rfl
  have h2 := (Nat.log2_lt hn).1 (Nat.lt_succ_self _)
  have hcast : (v.toNat : ℤ) = v := Int.toNat_of_nonneg (by omega)
  constructor
  · have := (Nat.cast_le (α := ℤ)).2 h1
    push_cast at this
    rwa [hcast] at this
  · have := (Nat.cast_lt (α := ℤ)).2 h2
    push_cast at this
    rwa [hcast] at this

/-- Claim C6, counterexample: on a histogram with requested ratio 2
(internal ratio 8) and `d = 4`, the code caps against the *requested*
ratio and returns `floor(log2 2) = 1`, while the claim (capping against
the internal ratio, which 4 does not exceed) predicts the binary order
of magnitude of 4, namely 3. -/
theorem c6_counterexample :
    find_capped_containing_binary_order_of_magnitude histSmallWindow 4 = 1
    ∧ capped_order_of_magnitude_claim histSmallWindow 4 = 3 := by
  have h2 : Nat.log2 2 = 1 := by simp [Nat.log2]
  have h4 : Nat.log2 4 = 2 := by simp [Nat.log2]
  have ht2 : Int.toNat 2 = 2 := rfl
  have ht4 : Int.toNat 4 = 4 := rfl
  constructor
  · simp only [find_capped_containing_binary_order_of_magnitude, histSmallWindow,
      engineRecordFail]
    norm_num [ht2, h2]
  · simp only [capped_order_of_magnitude_claim, calculate_internal_highest_to_lowest_value_ratio,
      find_containing_binary_order_of_magnitude, histSmallWindow, engineRecordFail, truncQ]
    norm_num [ht2, ht4, h2, h4]

/-- Claim C6 (amended): `find_capped_containing_binary_order_of_magnitude`
caps against the *requested* (external) `highest_to_lowest_value_ratio`:
when `d` exceeds it, the result is the binary exponent of the external
ratio (the unique `k` with `2^k ≤ ratio < 2^(k+1)`); otherwise 50 when
`d > 2^50`; otherwise the position of the highest set bit of the
truncation of `d` (the unique `k ≥ 1` with `2^(k-1) ≤ trunc d < 2^k`). -/
theorem c6_capped_order_amended (h : hdr_dbl_histogram) (d : ℚ)
    (hr : 2 ≤ h.highest_to_lowest_value_ratio) (hd : 1 ≤ d) :
    ((h.highest_to_lowest_value_ratio : ℚ) < d →
      (2 : ℤ) ^ find_capped_containing_binary_order_of_magnitude h d
          ≤ h.highest_to_lowest_value_ratio
      ∧ h.highest_to_lowest_value_ratio
          < 2 ^ (find_capped_containing_binary_order_of_magnitude h d + 1))
    ∧ (d ≤ (h.highest_to_lowest_value_ratio : ℚ) → (2 : ℚ) ^ 50 < d →
        find_capped_containing_binary_order_of_magnitude h d = 50)
    ∧ (d ≤ (h.highest_to_lowest_value_ratio : ℚ) → d ≤ (2 : ℚ) ^ 50 →
        1 ≤ find_capped_containing_binary_order_of_magnitude h d
        ∧ (2 : ℤ) ^ (find_capped_containing_binary_order_of_magnitude h d - 1) ≤ truncQ d
        ∧ truncQ d < 2 ^ find_capped_containing_binary_order_of_magnitude h d) := by
  unfold find_capped_containing_binary_order_of_magnitude
  split
  · next hlt =>
    refine ⟨fun _ => int_log2_char _ (by omega), fun hle _ => absurd hlt (not_lt.2 hle),
      fun hle _ => absurd hlt (not_lt.2 hle)⟩
  · next hge =>
    split
    · next h50 =>
      exact ⟨fun hlt => absurd hlt hge, fun _ _ => rfl,
        fun _ hle => absurd h50 (not_lt.2 hle)⟩
    · next h50 =>
      refine ⟨fun hlt => absurd hlt hge, fun _ hgt => absurd hgt h50, fun _ _ => ?_⟩
      have htr : 1 ≤ truncQ d := by
        unfold truncQ
        rw [if_pos (by linarith)]
        exact Int.le_floor.2 (by push_cast; linarith)
      have hchar := int_log2_char (truncQ d) htr
      unfold find_containing_binary_order_of_magnitude
      exact ⟨by omega, by simpa using hchar.1, hchar.2⟩

/-- Witness for the amended claim C6: instantiated on the concrete
histogram with requested ratio 2 at `d = 4`. -/
theorem c6_witness :
    ((2 : ℤ) ≤ histSmallWindow.highest_to_lowest_value_ratio ∧ (1 : ℚ) ≤ 4)
    ∧ (((histSmallWindow.highest_to_lowest_value_ratio : ℤ) : ℚ) < 4 →
        (2 : ℤ) ^ find_capped_containing_binary_order_of_magnitude histSmallWindow 4
            ≤ histSmallWindow.highest_to_lowest_value_ratio
        ∧ histSmallWindow.highest_to_lowest_value_ratio
            < 2 ^ (find_capped_containing_binary_order_of_magnitude histSmallWindow 4 + 1))
    ∧ ((4 : ℚ) ≤ ((histSmallWindow.highest_to_lowest_value_ratio : ℤ) : ℚ) → (2 : ℚ) ^ 50 < 4 →
        find_capped_containing_binary_order_of_magnitude histSmallWindow 4 = 50)
    ∧ ((4 : ℚ) ≤ ((histSmallWindow.highest_to_lowest_value_ratio : ℤ) : ℚ) → (4 : ℚ) ≤ (2 : ℚ) ^ 50 →
        1 ≤ find_capped_containing_binary_order_of_magnitude histSmallWindow 4
        ∧ (2 : ℤ) ^ (find_capped_containing_binary_order_of_magnitude histSmallWindow 4 - 1)
            ≤ truncQ 4
        ∧ truncQ 4 < 2 ^ find_capped_containing_binary_order_of_magnitude histSmallWindow 4) := by
  have hmain := c6_capped_order_amended histSmallWindow 4 (by norm_num [histSmallWindow])
    (by norm_num)
  exact ⟨⟨by norm_num [histSmallWindow], by norm_num⟩, hmain.1, hmain.2.1, hmain.2.2⟩

/-- Claim C10: for every state with a positive window lower bound
(an invariant of all reachable states), recording a negative value
fails and leaves the histogram — including the engine's total count —
completely unchanged, while recording 0.0 always reports success and
never moves the window. -/
theorem c10_record_negative_zero (h : hdr_dbl_histogram) (fuel : ℕ) (v : ℚ)
    (hl : 0 < h.current_lowest_value) (hv : v < 0) :
    hdr_dbl_record_value fuel h v = some (false, h)
    ∧ (hdr_dbl_record_value fuel h 0).map Prod.fst = some true
    ∧ ∀ b h2, hdr_dbl_record_value fuel h 0 = some (b, h2) →
        h2.current_lowest_value = h.current_lowest_value
        ∧ h2.current_highest_value = h.current_highest_value := by
  have hvlt : v < h.current_lowest_value := hv.trans hl
  have hvne : ¬ v = 0 := ne_of_lt hv
  refine ⟨?_, ?_, ?_⟩
  · simp [hdr_dbl_record_value, adjust_range_for_value, hvlt, hvne, hv]
  · simp [hdr_dbl_record_value, adjust_range_for_value, hl, not_lt.2 hl.le]
  · intro b h2 heq
    simp [hdr_dbl_record_value, adjust_range_for_value, hl, not_lt.2 hl.le] at heq
    rw [← heq.2]
    exact ⟨rfl, rfl⟩

/-- Witness for claim C10 at the concrete small-window histogram and
value `-5`. -/
theorem c10_witness :
    ((0 : ℚ) < histSmallWindow.current_lowest_value ∧ (-5 : ℚ) < 0)
    ∧ hdr_dbl_record_value 0 histSmallWindow (-5) = some (false, histSmallWindow)
    ∧ (hdr_dbl_record_value 0 histSmallWindow 0).map Prod.fst = some true
    ∧ ∀ b h2, hdr_dbl_record_value 0 histSmallWindow 0 = some (b, h2) →
        h2.current_lowest_value = histSmallWindow.current_lowest_value
        ∧ h2.current_highest_value = histSmallWindow.current_highest_value := by
  have hmain := c10_record_negative_zero histSmallWindow 0 (-5)
    (by norm_num [histSmallWindow]) (by norm_num)
  exact ⟨⟨by norm_num [histSmallWindow], by norm_num⟩, hmain.1, hmain.2.1, hmain.2.2⟩

/-- Claim C4 (code bug): at `significant_figures = 1` the code derives
`number_of_sub_buckets = 16`, which is not even ≥ `2 * 10^1 = 20`
(the claim's smallest power of two ≥ `2 * 10^sf` is 32): the source
computes `ceil(log(largest / log(2)))` — the natural logarithm of
`largest / ln 2` — instead of `ceil(log2(largest))`. -/
theorem c4_sub_buckets_undersized :
    number_of_sub_buckets 1 = 16 ∧ ¬ (2 * 10 ^ (1 : ℕ) ≤ (16 : ℤ)) := by
  constructor
  · unfold number_of_sub_buckets
    have hLgt : (0.6931471803 : ℝ) < Real.log 2 := Real.log_two_gt_d9
    have hLlt : Real.log 2 < 0.6931471808 := Real.log_two_lt_d9
    have hLpos : (0 : ℝ) < Real.log 2 := by linarith
    have harg : ((2 * 10 ^ 1 : ℤ) : ℝ) = 20 := by norm_num
    rw [harg]
    have hxlb : (28.8 : ℝ) < 20 / Real.log 2 := by
      rw [lt_div_iff₀ hLpos]; nlinarith
    have hxub : 20 / Real.log 2 < 28.9 := by
      rw [div_lt_iff₀ hLpos]; nlinarith
    have hxpos : (0 : ℝ) < 20 / Real.log 2 := by positivity
    have hle : Real.log (20 / Real.log 2) ≤ 4 := by
      rw [Real.log_le_iff_le_exp hxpos]
      have hpow : (2.7182818283 : ℝ) ^ (4 : ℕ) ≤ Real.exp 1 ^ (4 : ℕ) :=
        pow_le_pow_left₀ (by norm_num) Real.exp_one_gt_d9.le 4
      have hexp : Real.exp 1 ^ (4 : ℕ) = Real.exp 4 := by
        rw [Real.exp_one_pow]; norm_num
      have hnum : (28.9 : ℝ) ≤ (2.7182818283 : ℝ) ^ (4 : ℕ) := by norm_num
      linarith
    have hgt : 3 < Real.log (20 / Real.log 2) := by
      rw [Real.lt_log_iff_exp_lt hxpos]
      have hpow : Real.exp 1 ^ (3 : ℕ) ≤ (2.7182818286 : ℝ) ^ (3 : ℕ) :=
        pow_le_pow_left₀ (Real.exp_pos 1).le Real.exp_one_lt_d9.le 3
      have hexp : Real.exp 1 ^ (3 : ℕ) = Real.exp 3 := by
        rw [Real.exp_one_pow]; norm_num
      have hnum : (2.7182818286 : ℝ) ^ (3 : ℕ) < 28.8 := by norm_num
      linarith
    have hceil : ⌈Real.log (20 / Real.log 2)⌉ = 4 := by
      rw [Int.ceil_eq_iff]
      constructor
      · push_cast; linarith
      · push_cast; linarith
    rw [hceil, show Int.toNat 4 = 4 from rfl]
    norm_num
  · norm_num

/-- Outcome analysis of `shift_covered_range_right`: on success both
window bounds are multiplied by `2^-shift`; on failure they are
unchanged. -/
lemma scrr_fields (h : hdr_dbl_histogram) (s : ℕ) :
    ((shift_covered_range_right h s).1 = true
      ∧ (shift_covered_range_right h s).2.current_lowest_value
          = h.current_lowest_value * (1 / 2 ^ s)
      ∧ (shift_covered_range_right h s).2.current_highest_value
          = h.current_highest_value * (1 / 2 ^ s))
    ∨ ((shift_covered_range_right h s).1 = false
      ∧ (shift_covered_range_right h s).2.current_lowest_value = h.current_lowest_value
      ∧ (shift_covered_range_right h s).2.current_highest_value = h.current_highest_value) := by
  unfold shift_covered_range_right
  dsimp only
  split_ifs <;> simp

/-- Outcome analysis of `shift_covered_range_left`: on success both
window bounds are multiplied by `2^shift`; on failure they are
unchanged. -/
lemma scrl_fields (h : hdr_dbl_histogram) (s : ℕ) :
    ((shift_covered_range_left h s).1 = true
      ∧ (shift_covered_range_left h s).2.current_lowest_value
          = h.current_lowest_value * 2 ^ s
      ∧ (shift_covered_range_left h s).2.current_highest_value
          = h.current_highest_value * 2 ^ s)
    ∨ ((shift_covered_range_left h s).1 = false
      ∧ (shift_covered_range_left h s).2.current_lowest_value = h.current_lowest_value
      ∧ (shift_covered_range_left h s).2.current_highest_value = h.current_highest_value) := by
  unfold shift_covered_range_left
  dsimp only
  split_ifs <;> simp

/-- Neither shift function touches the requested ratio field. -/
lemma scrr_ratio_eq (h : hdr_dbl_histogram) (s : ℕ) :
    (shift_covered_range_right h s).2.highest_to_lowest_value_ratio
      = h.highest_to_lowest_value_ratio := by
  unfold shift_covered_range_right
  dsimp only
  split_ifs <;> rfl

/-- Neither shift function touches the requested ratio field. -/
lemma scrl_ratio_eq (h : hdr_dbl_histogram) (s : ℕ) :
    (shift_covered_range_left h s).2.highest_to_lowest_value_ratio
      = h.highest_to_lowest_value_ratio := by
  unfold shift_covered_range_left
  dsimp only
  split_ifs <;> rfl

/-- On any histogram whose requested ratio is at least 2 (which
validation guarantees) every shift amount the capped helper produces is
at least one binary order of magnitude, so each applied shift strictly
moves the window. -/
lemma one_le_capped (h : hdr_dbl_histogram) (d : ℚ)
    (hr : 2 ≤ h.highest_to_lowest_value_ratio) :
    1 ≤ find_capped_containing_binary_order_of_magnitude h d := by
  unfold find_capped_containing_binary_order_of_magnitude
  split_ifs
  · have hn : h.highest_to_lowest_value_ratio.toNat ≠ 0 := by omega
    exact (Nat.le_log2 hn).2 (by omega)
  · omega
  · unfold find_containing_binary_order_of_magnitude
    omega

/-- Termination of the downward adjustment loop: as soon as the window's
lower bound is within a factor `2^k` of the (positive) value, fuel
`k + 1` suffices for the loop to deliver a result. -/
lemma adjust_down_loop_isSome (k : ℕ) :
    ∀ (h : hdr_dbl_histogram) (value : ℚ),
      2 ≤ h.highest_to_lowest_value_ratio → 0 < value →
      h.current_lowest_value ≤ value * 2 ^ k →
      (adjust_down_loop (k + 1) h value).isSome := by
  induction k with
  | zero =>
    intro h value hr hv hb
    unfold adjust_down_loop
    dsimp only
    set S := find_capped_containing_binary_order_of_magnitude h
        ((⌈h.current_lowest_value / value⌉ : ℚ) - 1) with hSdef
    split_ifs with hres hcond
    · exfalso
      rcases scrr_fields h S with ⟨_, hlow, _⟩ | ⟨hF, _, _⟩
      · rw [hlow] at hcond
        have hS : (0 : ℚ) < 2 ^ S := by positivity
        have h2S : (1 : ℚ) ≤ 2 ^ S := one_le_pow₀ (by norm_num)
        have h1 : h.current_lowest_value ≤ value := by simpa using hb
        have step1 : h.current_lowest_value * (1 / 2 ^ S) ≤ value * (1 / 2 ^ S) :=
          mul_le_mul_of_nonneg_right h1 (by positivity)
        have step2 : value * (1 / 2 ^ S) ≤ value := by
          rw [mul_one_div, div_le_iff₀ hS]
          nlinarith
        linarith
      · rw [hF] at hres
        simp at hres
    · simp
    · simp
  | succ n ih =>
    intro h value hr hv hb
    unfold adjust_down_loop
    dsimp only
    set S := find_capped_containing_binary_order_of_magnitude h
        ((⌈h.current_lowest_value / value⌉ : ℚ) - 1) with hSdef
    split_ifs with hres hcond
    · rcases scrr_fields h S with ⟨_, hlow, _⟩ | ⟨hF, _, _⟩
      · apply ih
        · rw [scrr_ratio_eq]
          exact hr
        · exact hv
        · rw [hlow]
          have hS1 : 1 ≤ S := by
            rw [hSdef]
            exact one_le_capped h _ hr
          have hS : (0 : ℚ) < 2 ^ S := by positivity
          have key : (2 : ℚ) ^ (n + 1) * (1 / 2 ^ S) ≤ 2 ^ n := by
            rw [mul_one_div, div_le_iff₀ hS, ← pow_add]
            exact pow_le_pow_right₀ (by norm_num) (by omega)
          calc h.current_lowest_value * (1 / 2 ^ S)
              ≤ (value * 2 ^ (n + 1)) * (1 / 2 ^ S) :=
                mul_le_mul_of_nonneg_right hb (by positivity)
            _ = value * ((2 : ℚ) ^ (n + 1) * (1 / 2 ^ S)) := by ring
            _ ≤ value * 2 ^ n := mul_le_mul_of_nonneg_left key hv.le
      · rw [hF] at hres
        simp at hres
    · simp
    · simp

/-- Termination of the upward adjustment loop: as soon as the value is
within a factor `2^k` of the (positive) window upper bound, fuel `k + 1`
suffices for the loop to deliver a result. -/
lemma adjust_up_loop_isSome (k : ℕ) :
    ∀ (h : hdr_dbl_histogram) (value : ℚ),
      2 ≤ h.highest_to_lowest_value_ratio → 0 < h.current_highest_value →
      value < h.current_highest_value * 2 ^ k →
      (adjust_up_loop (k + 1) h value).isSome := by
  induction k with
  | zero =>
    intro h value hr hh hb
    unfold adjust_up_loop
    dsimp only
    set S := find_capped_containing_binary_order_of_magnitude h
        ((⌈nextafter_dbl_max value / h.current_highest_value⌉ : ℚ) - 1) with hSdef
    split_ifs with hres hcond
    · exfalso
      rcases scrl_fields h S with ⟨_, _, hhigh⟩ | ⟨hF, _, _⟩
      · rw [hhigh] at hcond
        have h2S : (1 : ℚ) ≤ 2 ^ S := one_le_pow₀ (by norm_num)
        have h1 : value < h.current_highest_value := by simpa using hb
        nlinarith
      · rw [hF] at hres
        simp at hres
    · simp
    · simp
  | succ n ih =>
    intro h value hr hh hb
    unfold adjust_up_loop
    dsimp only
    set S := find_capped_containing_binary_order_of_magnitude h
        ((⌈nextafter_dbl_max value / h.current_highest_value⌉ : ℚ) - 1) with hSdef
    split_ifs with hres hcond
    · rcases scrl_fields h S with ⟨_, _, hhigh⟩ | ⟨hF, _, _⟩
      · apply ih
        · rw [scrl_ratio_eq]
          exact hr
        · rw [hhigh]
          positivity
        · rw [hhigh]
          have hS1 : 1 ≤ S := by
            rw [hSdef]
            exact one_le_capped h _ hr
          have key : (2 : ℚ) ^ (n + 1) ≤ 2 ^ S * 2 ^ n := by
            rw [← pow_add]
            exact pow_le_pow_right₀ (by norm_num) (by omega)
          calc value < h.current_highest_value * 2 ^ (n + 1) := hb
            _ ≤ h.current_highest_value * (2 ^ S * 2 ^ n) :=
              mul_le_mul_of_nonneg_left key hh.le
            _ = h.current_highest_value * 2 ^ S * 2 ^ n := by ring
      · rw [hF] at hres
        simp at hres
    · simp
    · simp

/-- Claim C8: on every state satisfying the reachable-state invariants
(requested ratio at least 2, positive window bounds — all established by
construction and preserved by every shift), the range-adjustment
algorithm terminates for every value: some finite fuel makes both
adjustment loops deliver a result (each successful shift step moves the
window by at least one binary order, and a failing step exits
immediately). -/
theorem c8_adjust_range_terminates (h : hdr_dbl_histogram) (value : ℚ)
    (hr : 2 ≤ h.highest_to_lowest_value_ratio)
    (hl : 0 < h.current_lowest_value)
    (hh : 0 < h.current_highest_value) :
    ∃ fuel, (adjust_range_for_value fuel h value).isSome := by
  by_cases h0 : value = 0
  · exact ⟨0, by simp [adjust_range_for_value, h0]⟩
  by_cases hlow : value < h.current_lowest_value
  · by_cases hneg : value < 0
    · exact ⟨0, by simp [adjust_range_for_value, h0, hlow, hneg]⟩
    · have hvpos : 0 < value := lt_of_le_of_ne (not_lt.1 hneg) (Ne.symm h0)
      obtain ⟨k, hk⟩ := pow_unbounded_of_one_lt (h.current_lowest_value / value)
        (by norm_num : (1 : ℚ) < 2)
      have hb : h.current_lowest_value ≤ value * 2 ^ k := by
        rw [div_lt_iff₀ hvpos] at hk
        linarith
      refine ⟨k + 1, ?_⟩
      have hloop := adjust_down_loop_isSome k h value hr hvpos hb
      simpa [adjust_range_for_value, h0, hlow, hneg] using hloop
  · by_cases hhigh : h.current_highest_value ≤ value
    · by_cases heva : HIGHEST_VALUE_EVA < value
      · exact ⟨0, by simp [adjust_range_for_value, h0, hlow, hhigh, heva]⟩
      · obtain ⟨k, hk⟩ := pow_unbounded_of_one_lt (value / h.current_highest_value)
          (by norm_num : (1 : ℚ) < 2)
        have hb : value < h.current_highest_value * 2 ^ k := by
          rw [div_lt_iff₀ hh] at hk
          linarith
        refine ⟨k + 1, ?_⟩
        have hloop := adjust_up_loop_isSome k h value hr hh hb
        simpa [adjust_range_for_value, h0, hlow, hhigh, heva] using hloop
    · exact ⟨0, by simp [adjust_range_for_value, h0, hlow, hhigh]⟩

/-- Witness for claim C8 at the concrete small-window histogram and the
out-of-window value 1/2. -/
theorem c8_witness :
    ((2 : ℤ) ≤ histSmallWindow.highest_to_lowest_value_ratio
      ∧ (0 : ℚ) < histSmallWindow.current_lowest_value
      ∧ (0 : ℚ) < histSmallWindow.current_highest_value)
    ∧ ∃ fuel, (adjust_range_for_value fuel histSmallWindow (1 / 2)).isSome :=
  ⟨⟨by norm_num [histSmallWindow], by norm_num [histSmallWindow],
      by norm_num [histSmallWindow]⟩,
    c8_adjust_range_terminates histSmallWindow (1 / 2)
      (by norm_num [histSmallWindow]) (by norm_num [histSmallWindow])
      (by norm_num [histSmallWindow])⟩

/-- A downward shift rescales both window bounds by the same factor, so
it preserves the proportionality `highest = lowest * c`. -/
lemma scrr_window (h : hdr_dbl_histogram) (s : ℕ) (c : ℚ)
    (hc : h.current_highest_value = h.current_lowest_value * c) :
    (shift_covered_range_right h s).2.current_highest_value
      = (shift_covered_range_right h s).2.current_lowest_value * c := by
  rcases scrr_fields h s with ⟨_, h1, h2⟩ | ⟨_, h1, h2⟩ <;> rw [h1, h2, hc] <;> ring

/-- An upward shift rescales both window bounds by the same factor, so
it preserves the proportionality `highest = lowest * c`. -/
lemma scrl_window (h : hdr_dbl_histogram) (s : ℕ) (c : ℚ)
    (hc : h.current_highest_value = h.current_lowest_value * c) :
    (shift_covered_range_left h s).2.current_highest_value
      = (shift_covered_range_left h s).2.current_lowest_value * c := by
  rcases scrl_fields h s with ⟨_, h1, h2⟩ | ⟨_, h1, h2⟩ <;> rw [h1, h2, hc] <;> ring

/-- The downward adjustment loop preserves the window proportionality. -/
lemma adjust_down_loop_window (fuel : ℕ) :
    ∀ (h : hdr_dbl_histogram) (value : ℚ) (b : Bool) (h2 : hdr_dbl_histogram) (c : ℚ),
      adjust_down_loop fuel h value = some (b, h2) →
      h.current_highest_value = h.current_lowest_value * c →
      h2.current_highest_value = h2.current_lowest_value * c := by
  induction fuel with
  | zero =>
    intro h value b h2 c heq hc
    simp [adjust_down_loop] at heq
  | succ n ih =>
    intro h value b h2 c heq hc
    unfold adjust_down_loop at heq
    dsimp only at heq
    split_ifs at heq with hres hcond
    · exact ih _ value b h2 c heq (scrr_window h _ c hc)
    · have hh2 : _ = h2 := congrArg Prod.snd (Option.some.inj heq)
      rw [← hh2]
      exact scrr_window h _ c hc
    · have hh2 : _ = h2 := congrArg Prod.snd (Option.some.inj heq)
      rw [← hh2]
      exact scrr_window h _ c hc

/-- The upward adjustment loop preserves the window proportionality. -/
lemma adjust_up_loop_window (fuel : ℕ) :
    ∀ (h : hdr_dbl_histogram) (value : ℚ) (b : Bool) (h2 : hdr_dbl_histogram) (c : ℚ),
      adjust_up_loop fuel h value = some (b, h2) →
      h.current_highest_value = h.current_lowest_value * c →
      h2.current_highest_value = h2.current_lowest_value * c := by
  induction fuel with
  | zero =>
    intro h value b h2 c heq hc
    simp [adjust_up_loop] at heq
  | succ n ih =>
    intro h value b h2 c heq hc
    unfold adjust_up_loop at heq
    dsimp only at heq
    split_ifs at heq with hres hcond
    · exact ih _ value b h2 c heq (scrl_window h _ c hc)
    · have hh2 : _ = h2 := congrArg Prod.snd (Option.some.inj heq)
      rw [← hh2]
      exact scrl_window h _ c hc
    · have hh2 : _ = h2 := congrArg Prod.snd (Option.some.inj heq)
      rw [← hh2]
      exact scrl_window h _ c hc

/-- The full range-adjustment algorithm preserves the window
proportionality, whether it succeeds or aborts part-way. -/
lemma adjust_range_window (fuel : ℕ) (h : hdr_dbl_histogram) (value : ℚ) (b : Bool)
    (h2 : hdr_dbl_histogram) (c : ℚ)
    (heq : adjust_range_for_value fuel h value = some (b, h2))
    (hc : h.current_highest_value = h.current_lowest_value * c) :
    h2.current_highest_value = h2.current_lowest_value * c := by
  unfold adjust_range_for_value at heq
  split_ifs at heq
  all_goals first
    | (have hh2 : _ = h2 := congrArg Prod.snd (Option.some.inj heq)
       rw [← hh2]
       exact hc)
    | exact adjust_down_loop_window fuel h value b h2 c heq hc
    | exact adjust_up_loop_window fuel h value b h2 c heq hc

/-- The public recording operation preserves the window
proportionality: recording only ever moves the window through the shift
functions, which rescale both bounds identically. -/
lemma record_window (fuel : ℕ) (h : hdr_dbl_histogram) (value : ℚ) (b : Bool)
    (h2 : hdr_dbl_histogram) (c : ℚ)
    (heq : hdr_dbl_record_value fuel h value = some (b, h2))
    (hc : h.current_highest_value = h.current_lowest_value * c) :
    h2.current_highest_value = h2.current_lowest_value * c := by
  unfold hdr_dbl_record_value at heq
  split_ifs at heq with hcond
  · rcases hadj : adjust_range_for_value fuel h value with _ | ⟨b1, h1⟩
    · rw [hadj] at heq
      simp at heq
    · rw [hadj] at heq
      have hwin := adjust_range_window fuel h value b1 h1 c hadj hc
      cases b1
      · have hh2 : _ = h2 := congrArg Prod.snd (Option.some.inj heq)
        rw [← hh2]
        exact hwin
      · have hh2 : _ = h2 := congrArg Prod.snd (Option.some.inj heq)
        rw [← hh2]
        exact hwin
  · have hh2 : _ = h2 := congrArg Prod.snd (Option.some.inj heq)
    rw [← hh2]
    exact hc

/-- Claim C9: a successful construction establishes
`current_highest_value = current_lowest_value * internal_ratio` with the
internal ratio a power of two at least the requested ratio, and every
recording operation (hence every successful shift it performs) preserves
any such proportionality of the window bounds exactly. -/
theorem c9_window_ratio_invariant (r sf shc : ℤ) (e : hdr_histogram)
    (h h1 h2 : hdr_dbl_histogram) (c v : ℚ) (fuel : ℕ) (b : Bool)
    (hinit : hdr_dbl_init r sf shc e = some h)
    (hc : h1.current_highest_value = h1.current_lowest_value * c)
    (hrec : hdr_dbl_record_value fuel h1 v = some (b, h2)) :
    (h.current_highest_value
        = h.current_lowest_value * ((calculate_internal_highest_to_lowest_value_ratio r : ℤ) : ℚ)
      ∧ (∃ k : ℕ, calculate_internal_highest_to_lowest_value_ratio r = 2 ^ k)
      ∧ r ≤ calculate_internal_highest_to_lowest_value_ratio r)
    ∧ h2.current_highest_value = h2.current_lowest_value * c := by
  refine ⟨?_, record_window fuel h1 v b h2 c hrec hc⟩
  unfold hdr_dbl_init at hinit
  split_ifs at hinit with hr1 hr2 hr3
  have hh := Option.some.inj hinit
  subst hh
  refine ⟨rfl, ⟨find_containing_binary_order_of_magnitude r + 1, rfl⟩, ?_⟩
  have hchar := int_log2_char r (by omega)
  unfold calculate_internal_highest_to_lowest_value_ratio
    find_containing_binary_order_of_magnitude
  have hmono : (2 : ℤ) ^ (Nat.log2 r.toNat + 1) ≤ 2 ^ (Nat.log2 r.toNat + 1 + 1) :=
    pow_le_pow_right₀ (by norm_num) (by omega)
  linarith [hchar.2]

set_option maxRecDepth 8000 in
/-- Witness for claim C9: the histogram constructed by
`hdr_dbl_init(2, 3, ...)`, into which the value 0.0 is then recorded. -/
theorem c9_witness :
    hdr_dbl_init 2 3 1024 engineFreshOk = some histFresh
    ∧ histFresh.current_highest_value
        = histFresh.current_lowest_value
          * ((calculate_internal_highest_to_lowest_value_ratio 2 : ℤ) : ℚ)
    ∧ hdr_dbl_record_value 0 histFresh 0 = some (true, histFreshRecorded)
    ∧ ((histFresh.current_highest_value
          = histFresh.current_lowest_value
            * ((calculate_internal_highest_to_lowest_value_ratio 2 : ℤ) : ℚ)
        ∧ (∃ k : ℕ, calculate_internal_highest_to_lowest_value_ratio 2 = 2 ^ k)
        ∧ (2 : ℤ) ≤ calculate_internal_highest_to_lowest_value_ratio 2)
      ∧ histFreshRecorded.current_highest_value
          = histFreshRecorded.current_lowest_value
            * ((calculate_internal_highest_to_lowest_value_ratio 2 : ℤ) : ℚ)) :=
  ⟨rfl, rfl, rfl,
    c9_window_ratio_invariant 2 3 1024 engineFreshOk histFresh histFresh histFreshRecorded
      ((calculate_internal_highest_to_lowest_value_ratio 2 : ℤ) : ℚ) 0 0 true rfl rfl rfl⟩

end HdrDbl
